import Mathlib

/-!
# Verification of the ZydisPE tool (`tools/ZydisPE.c`)

A shallow embedding of the PE-metadata interpreter and symbol-resolution
engine of the ZydisPE disassembler driver, together with proofs and
refutations of the specification's claims.

Machine integers are modelled as `Nat` with explicit `% 2 ^ 32` (resp.
`% 2 ^ 64`) wherever the C code truncates.  Structures that the C code
reaches through `RVAToFileOffset` pointer chasing (the export directory,
the import descriptors, thunk arrays, strings) are modelled as already
resolved fields of a `PEImage` record; the RVA-to-offset arithmetic
itself is verified separately against the section table.
-/

namespace ZydisPE

/-! ## 32-bit machine arithmetic -/

/-- Truncation to an unsigned 32-bit value, `x % 2^32`. -/
def wrap32 (x : Nat) : Nat := x % 2 ^ 32

/-- Bitwise complement of the 32-bit truncation of `x` (the C `~` operator
on a `ZyanU32`). -/
def not32 (x : Nat) : Nat := 2 ^ 32 - 1 - wrap32 x

/-- The Zycore macro `ZYAN_ALIGN_UP(x, align)` = `((x + align - 1) & ~(align - 1))`,
evaluated on 32-bit unsigned operands.  `x + align - 1` and `align - 1` are
C unsigned expressions, so the subtraction wraps; adding `2^32 - 1` before
truncating reproduces the C value for all operands below `2^32`. -/
def alignUp32 (x align : Nat) : Nat :=
  wrap32 (x + align + (2 ^ 32 - 1)) &&& not32 (align + (2 ^ 32 - 1))

/-- Rounding up to the next multiple of `align`: the specification's
"rounded up to file alignment". -/
def roundUpTo (x align : Nat) : Nat := ((x + align - 1) / align) * align

theorem land_two_pow_sub (x k : Nat) (hx : x < 2 ^ 32) (hk : k ≤ 32) :
    x &&& (2 ^ 32 - 2 ^ k) = x - x % 2 ^ k := by
  have hmask : 2 ^ 32 - 2 ^ k = (2 ^ (32 - k) - 1) <<< k := by
    rw [Nat.shiftLeft_eq, Nat.sub_mul, Nat.one_mul, ← Nat.pow_add]
    rw [Nat.sub_add_cancel hk]
  have hrhs : x - x % 2 ^ k = (x >>> k) <<< k := by
    rw [Nat.shiftLeft_eq, Nat.shiftRight_eq_div_pow]
    have hdm := Nat.div_add_mod x (2 ^ k)
    have h2 : x / 2 ^ k * 2 ^ k = 2 ^ k * (x / 2 ^ k) := Nat.mul_comm _ _
    omega
  rw [hmask, hrhs]
  apply Nat.eq_of_testBit_eq
  intro i
  simp only [Nat.testBit_and, Nat.testBit_shiftLeft, Nat.testBit_shiftRight,
    Nat.testBit_two_pow_sub_one]
  by_cases hki : k ≤ i
  · by_cases hi32 : i < 32
    · have h1 : i - k < 32 - k := by omega
      have h2 : k + (i - k) = i := by omega
      simp [ge_iff_le, hki, h1, h2]
    · have hx0 : x.testBit i = false := Nat.testBit_lt_two_pow (by
        calc x < 2 ^ 32 := hx
        _ ≤ 2 ^ i := Nat.pow_le_pow_right (by omega) (by omega))
      have h2 : k + (i - k) = i := by omega
      have h3 : ¬(i - k < 32 - k) := by omega
      simp [ge_iff_le, hki, h2, h3, hx0]
  · simp [ge_iff_le, hki]

theorem alignUp32_eq_roundUpTo (x k : Nat) (hk : k ≤ 31) (hx : x + 2 ^ k ≤ 2 ^ 32) :
    alignUp32 x (2 ^ k) = roundUpTo x (2 ^ k) := by
  have hk1 : 1 ≤ 2 ^ k := Nat.one_le_two_pow
  have hklt : 2 ^ k < 2 ^ 32 := by
    calc 2 ^ k ≤ 2 ^ 31 := Nat.pow_le_pow_right (by omega) hk
    _ < 2 ^ 32 := by norm_num
  have e1 : wrap32 (x + 2 ^ k + (2 ^ 32 - 1)) = x + 2 ^ k - 1 := by
    unfold wrap32
    have hsplit : x + 2 ^ k + (2 ^ 32 - 1) = (x + 2 ^ k - 1) + 1 * 2 ^ 32 := by omega
    rw [hsplit, Nat.add_mul_mod_self_right]
    exact Nat.mod_eq_of_lt (by omega)
  have e2 : not32 (2 ^ k + (2 ^ 32 - 1)) = 2 ^ 32 - 2 ^ k := by
    unfold not32 wrap32
    have hsplit : 2 ^ k + (2 ^ 32 - 1) = (2 ^ k - 1) + 1 * 2 ^ 32 := by omega
    rw [hsplit, Nat.add_mul_mod_self_right, Nat.mod_eq_of_lt (by omega)]
    omega
  unfold alignUp32
  rw [e1, e2, land_two_pow_sub (x + 2 ^ k - 1) k (by omega) (by omega)]
  unfold roundUpTo
  have hdm := Nat.div_add_mod (x + 2 ^ k - 1) (2 ^ k)
  have h2 : (x + 2 ^ k - 1) / 2 ^ k * 2 ^ k = 2 ^ k * ((x + 2 ^ k - 1) / 2 ^ k) :=
    Nat.mul_comm _ _
  omega

/-! ## Section table and RVA translation (`GetSectionByRVA`, `RVAToFileOffset`) -/

/-- The fields of `IMAGE_SECTION_HEADER` that the tool reads. -/
structure SectionHeader where
  /-- `Misc.VirtualSize` -/
  virtualSize : Nat
  /-- `VirtualAddress` -/
  virtualAddress : Nat
  /-- `SizeOfRawData` -/
  sizeOfRawData : Nat
  /-- `PointerToRawData` -/
  pointerToRawData : Nat
  /-- `Characteristics` -/
  characteristics : Nat
  deriving DecidableEq, Repr

/-- The part of the parsed image that `GetSectionByRVA` consults: the
optional header's `FileAlignment` and the section table in file order. -/
structure ImageView where
  fileAlignment : Nat
  sections : List SectionHeader
  deriving DecidableEq, Repr

/-- The per-section size computation of `GetSectionByRVA`
(`ZydisPE.c:423-428`): raw size, clipped by a nonzero virtual size, then
aligned up to `FileAlignment` with 32-bit wraparound. -/
def sectionEffectiveSize (fileAlignment : Nat) (s : SectionHeader) : Nat :=
  let size := s.sizeOfRawData
  let size := if 0 < s.virtualSize then min s.virtualSize size else size
  alignUp32 size fileAlignment

/-- The containment test of `GetSectionByRVA` (`ZydisPE.c:430`); the sum
`VirtualAddress + size` is a 32-bit addition. -/
def sectionContains (fileAlignment : Nat) (s : SectionHeader) (rva : Nat) : Bool :=
  decide (s.virtualAddress ≤ rva) &&
    decide (rva < wrap32 (s.virtualAddress + sectionEffectiveSize fileAlignment s))

/-- `GetSectionByRVA` (`ZydisPE.c:410-437`): the first section in file
order whose effective range contains `rva`. -/
def GetSectionByRVA (im : ImageView) (rva : Nat) : Option SectionHeader :=
  im.sections.find? fun s => sectionContains im.fileAlignment s rva

/-- `RVAToFileOffset` (`ZydisPE.c:447-459`), as an offset from `base`. -/
def RVAToFileOffset (im : ImageView) (rva : Nat) : Option Nat :=
  (GetSectionByRVA im rva).map fun s => s.pointerToRawData + (rva - s.virtualAddress)

/-- The specification's effective section size: `min(virtual size, raw size)`
rounded up to file alignment when the virtual size is nonzero, else the raw
size rounded up. -/
def effectiveSizeSpec (fileAlignment : Nat) (s : SectionHeader) : Nat :=
  if s.virtualSize ≠ 0 then roundUpTo (min s.virtualSize s.sizeOfRawData) fileAlignment
  else roundUpTo s.sizeOfRawData fileAlignment

/-- The specification's section lookup: first section in file order whose
effective range contains the RVA. -/
def sectionForRVASpec (im : ImageView) (rva : Nat) : Option SectionHeader :=
  im.sections.find? fun s =>
    decide (s.virtualAddress ≤ rva ∧
      rva < s.virtualAddress + effectiveSizeSpec im.fileAlignment s)

/-- The specification's RVA-to-offset arithmetic:
`section.raw_pointer + (rva - section.virtual_address)` for the first
containing section, none otherwise. -/
def rvaToOffsetSpec (im : ImageView) (rva : Nat) : Option Nat :=
  (sectionForRVASpec im rva).map fun s => s.pointerToRawData + (rva - s.virtualAddress)

/-- Validity of a PE image view: the file alignment is a power of two
(as required of `FileAlignment`), and the section extents do not overflow
32-bit arithmetic. -/
structure ValidImageView (im : ImageView) : Prop where
  alignPow : ∃ k, k ≤ 31 ∧ im.fileAlignment = 2 ^ k
  rawBound : ∀ s ∈ im.sections, s.sizeOfRawData + im.fileAlignment ≤ 2 ^ 32
  noWrap : ∀ s ∈ im.sections,
    s.virtualAddress + effectiveSizeSpec im.fileAlignment s < 2 ^ 32

theorem find_eq_of_pred_eq {α : Type} {l : List α} {p q : α → Bool}
    (h : ∀ x ∈ l, p x = q x) : l.find? p = l.find? q := by
  induction l with
  | nil => rfl
  | cons a l ih =>
    have ha := h a (List.mem_cons_self a l)
    simp only [List.find?]
    rw [ha]
    cases q a with
    | true => rfl
    | false => exact ih fun x hx => h x (List.mem_cons_of_mem a hx)

theorem effectiveSize_eq_spec {im : ImageView} (h : ValidImageView im)
    {s : SectionHeader} (hs : s ∈ im.sections) :
    sectionEffectiveSize im.fileAlignment s = effectiveSizeSpec im.fileAlignment s := by
  obtain ⟨k, hk, hfa⟩ := h.alignPow
  have hraw := h.rawBound s hs
  have hmin : min s.virtualSize s.sizeOfRawData ≤ s.sizeOfRawData := Nat.min_le_right _ _
  simp only [sectionEffectiveSize, effectiveSizeSpec]
  by_cases hvs : 0 < s.virtualSize
  · rw [if_pos hvs, if_pos (by omega : s.virtualSize ≠ 0), hfa]
    exact alignUp32_eq_roundUpTo _ k hk (by omega)
  · rw [if_neg hvs, if_neg (by omega : ¬s.virtualSize ≠ 0), hfa]
    exact alignUp32_eq_roundUpTo _ k hk (by omega)

/-- C1: For every valid PE image and RVA, `RVAToFileOffset` returns
`raw_pointer + (rva - virtual_address)` of the first section (in file
order) whose effective range contains the RVA — effective size being
`min(virtual size, raw size)` rounded up to file alignment when the
virtual size is nonzero, else the raw size rounded up — and `none` when
no section's effective range contains it. -/
theorem rva_to_offset_correct (im : ImageView) (h : ValidImageView im) (rva : Nat) :
    RVAToFileOffset im rva = rvaToOffsetSpec im rva := by
  unfold RVAToFileOffset rvaToOffsetSpec GetSectionByRVA sectionForRVASpec
  rw [find_eq_of_pred_eq]
  intro s hs
  unfold sectionContains
  rw [effectiveSize_eq_spec h hs]
  have hnw := h.noWrap s hs
  have hw : wrap32 (s.virtualAddress + effectiveSizeSpec im.fileAlignment s)
      = s.virtualAddress + effectiveSizeSpec im.fileAlignment s :=
    Nat.mod_eq_of_lt hnw
  rw [hw]
  simp

/-- A concrete image view used to witness C1. -/
def imageViewC1 : ImageView :=
  { fileAlignment := 512
    sections :=
      [ { virtualSize := 0x100, virtualAddress := 0x1000, sizeOfRawData := 0x200
          pointerToRawData := 0x400, characteristics := 0x60000020 }
      , { virtualSize := 0, virtualAddress := 0x2000, sizeOfRawData := 0x200
          pointerToRawData := 0x600, characteristics := 0x40000040 } ] }

theorem rva_to_offset_correct_witness :
    ValidImageView imageViewC1 ∧
      RVAToFileOffset imageViewC1 0x1050 = rvaToOffsetSpec imageViewC1 0x1050 := by
  have hv : ValidImageView imageViewC1 :=
    ⟨⟨9, by decide, by decide⟩, by decide, by decide⟩
  exact ⟨hv, rva_to_offset_correct imageViewC1 hv 0x1050⟩

/-! ## Symbols, binary search and sorted insertion -/

/-- `ZydisPESymbol` (`ZydisPE.c:332-346`).  The two `ZydisString` fields of
the C local `element` are modelled as `Option String`: `none` stands for a
field that was never assigned since the local was declared (reading it in C
would yield an indeterminate value). -/
structure Symbol where
  address : Nat
  module_name : Option String
  symbol_name : Option String
  deriving DecidableEq, Repr

/-- The order on symbols induced by `CompareSymbol` (`ZydisPE.c:384-398`),
which compares the `address` fields. -/
def symLE (a b : Symbol) : Prop := a.address ≤ b.address

instance : DecidableRel symLE := fun a b => Nat.decLe a.address b.address

instance : IsTotal Symbol symLE := ⟨fun a b => Nat.le_total a.address b.address⟩

instance : IsTrans Symbol symLE := ⟨fun _ _ _ h1 h2 => Nat.le_trans h1 h2⟩

/-- The table invariant claimed by the spec: entries sorted ascending by
address (with respect to the `CompareSymbol` order). -/
def SortedByAddr (t : List Symbol) : Prop := List.Sorted symLE t

instance (t : List Symbol) : Decidable (SortedByAddr t) :=
  List.decidableSorted t

/-- The number of table entries whose address is strictly below `address`:
on a sorted table, the index at which an entry with that address must be
inserted to keep the table sorted. -/
def lowerIdx (t : List Symbol) (address : Nat) : Nat :=
  t.countP fun e => decide (e.address < address)

/-- Modelled from the spec: the Zycore routine `ZyanVectorBinarySearch`
(declared in the `Zycore/Vector.h` dependency, used with `CompareSymbol`).
Per its contract on an address-sorted table it yields `ZYAN_STATUS_TRUE`
(here `true`) together with the index of an element comparing equal to the
key when one exists, and `ZYAN_STATUS_FALSE` (`false`) together with the
index at which the key would have to be inserted to keep the table sorted.
The lower-bound formulation below is one conforming implementation of that
contract. -/
def ZyanVectorBinarySearch (t : List Symbol) (address : Nat) : Bool × Nat :=
  match t[lowerIdx t address]? with
  | some e => (decide (e.address = address), lowerIdx t address)
  | none => (false, lowerIdx t address)

/-- Modelled from the spec: `ZyanVectorInsert` (from the `Zycore/Vector.h`
dependency) places the element at the given index, shifting later entries
up. -/
def ZyanVectorInsert (t : List Symbol) (i : Nat) (x : Symbol) : List Symbol :=
  List.insertIdx i x t

/-- The symbol-resolution path of `ZydisFormatterPrintAddress`
(`ZydisPE.c:798-824`): binary-search the table with the address key; when
the search reports `ZYAN_STATUS_TRUE`, fetch and return the element at the
reported index, otherwise resolve to nothing (the caller then falls back to
default numeric address printing). -/
def lookupSymbol (t : List Symbol) (address : Nat) : Option Symbol :=
  let r := ZyanVectorBinarySearch t address
  if r.1 then t[r.2]? else none

theorem lowerIdx_le_length (t : List Symbol) (a : Nat) : lowerIdx t a ≤ t.length :=
  List.countP_le_length _

theorem insertIdx_lowerIdx_eq_orderedInsert (x : Symbol) :
    ∀ t : List Symbol, SortedByAddr t →
      List.insertIdx (lowerIdx t x.address) x t = List.orderedInsert symLE x t
  | [], _ => rfl
  | b :: t, h => by
    obtain ⟨hball, htail⟩ := List.sorted_cons.mp h
    by_cases hb : b.address < x.address
    · have hc : lowerIdx (b :: t) x.address = lowerIdx t x.address + 1 := by
        unfold lowerIdx
        rw [List.countP_cons_of_pos _ _ (by simpa using hb)]
      have hno : ¬symLE x b := by
        unfold symLE; omega
      rw [hc, List.insertIdx_succ_cons]
      simp only [List.orderedInsert, if_neg hno]
      rw [insertIdx_lowerIdx_eq_orderedInsert x t htail]
    · have hzero : lowerIdx (b :: t) x.address = 0 := by
        unfold lowerIdx
        rw [List.countP_cons_of_neg _ _ (by simpa using hb)]
        rw [List.countP_eq_zero]
        intro e he
        have hbe := hball e he
        unfold symLE at hbe
        simp only [decide_eq_true_eq]
        omega
      have hyes : symLE x b := by
        unfold symLE; omega
      rw [hzero, List.insertIdx_zero]
      simp only [List.orderedInsert, if_pos hyes]

/-- Inserting an element at the index computed by the lower-bound search
keeps the table sorted: the export-insertion step and the first thunk
insertion of each import descriptor preserve the ordering invariant. -/
theorem sorted_insert_lowerIdx {t : List Symbol} (h : SortedByAddr t) (x : Symbol) :
    SortedByAddr (List.insertIdx (lowerIdx t x.address) x t) := by
  rw [insertIdx_lowerIdx_eq_orderedInsert x t h]
  exact List.Sorted.orderedInsert x t h

theorem lowerIdx_get_of_mem :
    ∀ t : List Symbol, SortedByAddr t → ∀ a : Nat, a ∈ t.map Symbol.address →
      ∃ e, t[lowerIdx t a]? = some e ∧ e.address = a
  | [], _, a, ha => by simp at ha
  | b :: t, h, a, ha => by
    obtain ⟨hball, htail⟩ := List.sorted_cons.mp h
    by_cases hb : b.address < a
    · have hc : lowerIdx (b :: t) a = lowerIdx t a + 1 := by
        unfold lowerIdx
        rw [List.countP_cons_of_pos _ _ (by simpa using hb)]
      have hmem : a ∈ t.map Symbol.address := by
        rcases List.mem_map.mp ha with ⟨e, he, hea⟩
        rcases List.mem_cons.mp he with rfl | het
        · omega
        · exact List.mem_map.mpr ⟨e, het, hea⟩
      obtain ⟨e, hget, hea⟩ := lowerIdx_get_of_mem t htail a hmem
      exact ⟨e, by rw [hc]; simpa using hget, hea⟩
    · have hzero : lowerIdx (b :: t) a = 0 := by
        unfold lowerIdx
        rw [List.countP_cons_of_neg _ _ (by simpa using hb)]
        rw [List.countP_eq_zero]
        intro e he
        have hbe := hball e he
        unfold symLE at hbe
        simp only [decide_eq_true_eq]
        omega
      have hba : b.address = a := by
        rcases List.mem_map.mp ha with ⟨e, he, hea⟩
        rcases List.mem_cons.mp he with rfl | het
        · exact hea
        · have hbe := hball e het
          unfold symLE at hbe
          omega
      exact ⟨b, by rw [hzero]; simp, hba⟩

theorem lookup_not_mem {t : List Symbol} {a : Nat}
    (ha : a ∉ t.map Symbol.address) : lookupSymbol t a = none := by
  unfold lookupSymbol ZyanVectorBinarySearch
  cases hget : t[lowerIdx t a]? with
  | none => simp
  | some e =>
    have hmem : e ∈ t := List.getElem?_mem hget
    have hne : e.address ≠ a := fun hc =>
      ha (List.mem_map.mpr ⟨e, hmem, hc⟩)
    simp [hne]

/-- C3 (amended): on a table sorted by address — the search routine's
precondition, which the construction maintains except in the C2 failure
case — symbol-table lookup is an exact-match binary search: looking up an
address that is present returns an entry of the table carrying exactly
that address, and looking up an address that is absent returns none — in
particular it never returns the nearest-preceding symbol for an address
strictly between two entries.  On a table the construction left unsorted,
lookup of an inserted address can return none (see the counterexample
after `imageC2`). -/
theorem symbol_lookup_exact (t : List Symbol) (h : SortedByAddr t) (a : Nat) :
    (a ∈ t.map Symbol.address →
      ∃ e, lookupSymbol t a = some e ∧ e ∈ t ∧ e.address = a) ∧
    (a ∉ t.map Symbol.address → lookupSymbol t a = none) := by
  constructor
  · intro ha
    obtain ⟨e, hget, hea⟩ := lowerIdx_get_of_mem t h a ha
    refine ⟨e, ?_, List.getElem?_mem hget, hea⟩
    unfold lookupSymbol ZyanVectorBinarySearch
    rw [hget]
    simp [hea, hget]
  · exact lookup_not_mem

/-- A concrete sorted table used to witness C3. -/
def tableC3 : List Symbol :=
  [ { address := 4, module_name := some "m", symbol_name := some "f" }
  , { address := 9, module_name := some "m", symbol_name := some "g" } ]

theorem symbol_lookup_exact_witness :
    SortedByAddr tableC3 ∧
      ((4 ∈ tableC3.map Symbol.address →
          ∃ e, lookupSymbol tableC3 4 = some e ∧ e ∈ tableC3 ∧ e.address = 4) ∧
        (4 ∉ tableC3.map Symbol.address → lookupSymbol tableC3 4 = none)) :=
  ⟨by decide, symbol_lookup_exact tableC3 (by decide) 4⟩

/-! ## Module-name trimming -/

/-- Outcome of the module-name trimming loop. -/
inductive TrimOutcome
  | found (i : Nat)
  | oobRead (i : Nat)
  | fuelOut
  deriving DecidableEq, Repr

/-- The trimming loop
`for (ZyanUSize i = element.module_name.length - 1; i >= 0; --i)`
(`ZydisPE.c:513-520`, with identical copies at 575-582, 648-655 and
710-717).  `i` is an unsigned `ZyanUSize` (64-bit), so the continuation
test `i >= 0` holds always and `--i` past zero wraps to `2^64 - 1`: the
loop can only exit through the `break` on finding `'.'`.  Each iteration
reads `buffer[i]`; an index outside the string is an out-of-bounds read
(undefined behavior in C), reported here as `oobRead`.  The fuel argument
only makes the recursion structural — `buffer.length + 1` steps always
reach a `'.'` or leave the buffer. -/
def trimStep (buffer : List Char) : Nat → Nat → TrimOutcome
  | 0, _ => .fuelOut
  | fuel + 1, i =>
    match buffer[i]? with
    | none => .oobRead i
    | some c =>
      if c = '.' then .found i
      else trimStep buffer fuel ((i + (2 ^ 64 - 1)) % 2 ^ 64)

/-- The whole trimming loop: start at the C unsigned value `length - 1`
(which wraps for an empty string). -/
def trimModuleName (buffer : List Char) : TrimOutcome :=
  trimStep buffer (buffer.length + 1) ((buffer.length + (2 ^ 64 - 1)) % 2 ^ 64)

/-- C4 (evidence): on `"KERNEL32.dll"` the trimming loop breaks at the last
`'.'` (index 8) and the stored module name is `"KERNEL32"`; but on a name
without any `'.'`, such as `"KERNEL32"`, the unsigned loop index wraps past
zero and the loop reads `buffer[2^64 - 1]` — an out-of-range access, where
the claim demands that none occur. -/
theorem module_trim_behavior :
    trimModuleName "KERNEL32.dll".toList = .found 8 ∧
    String.mk ("KERNEL32.dll".toList.take 8) = "KERNEL32" ∧
    trimModuleName "KERNEL32".toList = .oobRead (2 ^ 64 - 1) := by
  refine ⟨by decide, by decide, by decide⟩

/-! ## Symbol-table construction (`ZydisPEContextInit`) -/

/-- The architecture selected by the optional-header magic
(`IMAGE_NT_OPTIONAL_HDR32_MAGIC` / `IMAGE_NT_OPTIONAL_HDR64_MAGIC`); it
determines the thunk width and ordinal-flag bit, the two construction
branches being otherwise identical. -/
inductive Width | w32 | w64
  deriving DecidableEq, Repr

/-- `sizeof(IMAGE_THUNK_DATA32)` = 4, `sizeof(IMAGE_THUNK_DATA64)` = 8. -/
def thunkSize : Width → Nat
  | .w32 => 4
  | .w64 => 8

/-- The test `u1.Ordinal & IMAGE_IMPORT_BY_ORDINAL32` (`0x80000000`),
resp. `IMAGE_IMPORT_BY_ORDINAL64` (`0x8000000000000000`): the top bit of
the pointer-sized thunk value. -/
def ordinalFlag : Width → Nat → Bool
  | .w32, v => v.testBit 31
  | .w64, v => v.testBit 63

/-- The export directory data that `ZydisPEContextInit` reads, with every
RVA already pushed through `RVAToFileOffset`: the module-name string at
`export_directory->Name`, and for each of the `NumberOfFunctions` entries
of the parallel `AddressOfFunctions`/`AddressOfNames` arrays the export
address and the resolved name string. -/
structure ExportDirectory where
  name : String
  functions : List (Nat × String)

/-- One `IMAGE_IMPORT_DESCRIPTOR` with its resolved module-name string
and the thunk values read starting at `OriginalFirstThunk` (the C walk
stops at the first zero value). -/
structure ImportDescriptor where
  originalFirstThunk : Nat
  name : String
  firstThunk : Nat
  thunks : List Nat

/-- The parsed image handed to `ZydisPEContextInit`, with the directory
data already resolved through `RVAToFileOffset` (whose arithmetic is
verified separately above).  `importByName` resolves a flag-clear thunk's
`AddressOfData` RVA to the `IMAGE_IMPORT_BY_NAME::Name` string. -/
structure PEImage where
  width : Width
  /-- `OptionalHeader.AddressOfEntryPoint`. -/
  addressOfEntryPoint : Nat
  /-- `some` iff the export data directory's `VirtualAddress` is nonzero. -/
  exportDirectory : Option ExportDirectory
  /-- `some` iff the import data directory's `VirtualAddress` is nonzero. -/
  importDescriptors : Option (List ImportDescriptor)
  importByName : Nat → String

/-- Fatal outcomes of the construction: the trimming loop leaving its
buffer (undefined behavior in C), and the failed assertion
`ZYAN_ASSERT(status == ZYAN_STATUS_FALSE)` after the `FirstThunk` search
(`ZydisPE.c:596` / `731`), which aborts in an assertion-enabled build. -/
inductive BuildError
  | oobModuleName
  | assertThunkPresent
  deriving DecidableEq, Repr

/-- The C local `element` of `ZydisPEContextInit`: a single record whose
fields persist across all loops of the construction; `none` marks a string
field that has not been assigned yet. -/
structure Elem where
  address : Nat
  module_name : Option String
  symbol_name : Option String
  deriving DecidableEq, Repr

/-- `element` as declared (no field initialized; the address is modelled
as 0 because every path assigns it before first use). -/
def initElem : Elem := { address := 0, module_name := none, symbol_name := none }

/-- The `ZydisPESymbol` value copied into the vector when `element` is
pushed or inserted. -/
def symOf (e : Elem) : Symbol :=
  { address := e.address, module_name := e.module_name, symbol_name := e.symbol_name }

/-- `ZydisStringInit` on a module name followed by the trimming loop
(`ZydisPE.c:508-520`): keep the text before the last `'.'`.  A name
without `'.'` makes the loop scan out of the buffer — undefined behavior,
modelled as a fatal error. -/
def stripModuleName (name : String) : Except BuildError String :=
  match trimModuleName name.toList with
  | .found i => .ok (String.mk (name.toList.take i))
  | _ => .error .oobModuleName

/-- One export insertion (`ZydisPE.c:538-557`): set the element's address
and symbol name from the parallel arrays, binary-search the table for the
address, and insert at the found index — unconditionally, with no check
whether the address is already present. -/
def exportStep (t : List Symbol) (e : Elem) (fn : Nat × String) : List Symbol × Elem :=
  let e := { e with address := fn.1, symbol_name := some fn.2 }
  let r := ZyanVectorBinarySearch t fn.1
  (ZyanVectorInsert t r.2 (symOf e), e)

/-- The export phase of `ZydisPEContextInit` (`ZydisPE.c:500-557`, and the
identical 64-bit copy at 635-692): if the export directory is present,
trim the module name, push the synthetic `EntryPoint` symbol keyed at the
entry-point RVA onto the still-empty vector, then insert every export. -/
def exportPhase (im : PEImage) : Except BuildError (List Symbol × Elem) :=
  match im.exportDirectory with
  | none => .ok ([], initElem)
  | some ed => do
    let mn ← stripModuleName ed.name
    let e : Elem := { address := im.addressOfEntryPoint, module_name := some mn,
                      symbol_name := some "EntryPoint" }
    let t : List Symbol := [symOf e]
    .ok (ed.functions.foldl (fun te fn => exportStep te.1 te.2 fn) (t, e))

/-- The state threaded through the thunk walk: the vector, the C local
`element`, and the running insertion index `found_index`. -/
structure WalkState where
  table : List Symbol
  elem : Elem
  idx : Nat
  deriving Repr

/-- The thunk walk (`ZydisPE.c:598-621` / 733-756): while the thunk value
is nonzero, resolve the by-name string when the ordinal flag is clear —
and leave `element.symbol_name` untouched when it is set — insert the
element at the running index, then advance the address by one thunk width
and the index by one. -/
def walkThunks (im : PEImage) (w : Width) : WalkState → List Nat → WalkState
  | st, [] => st
  | st, v :: rest =>
    if v = 0 then st
    else
      let e := if ordinalFlag w v then st.elem
               else { st.elem with symbol_name := some (im.importByName v) }
      walkThunks im w
        { table := ZyanVectorInsert st.table st.idx (symOf e)
          elem := { e with address := e.address + thunkSize w }
          idx := st.idx + 1 } rest

/-- Processing of one import descriptor (`ZydisPE.c:567-622`): trim the
module name, set the element's address to the descriptor's `FirstThunk`,
binary-search the table for it, require the search to report the address
absent (`ZYAN_ASSERT(status == ZYAN_STATUS_FALSE)`), then walk the
thunks. -/
def importDescStep (im : PEImage) (w : Width) (t : List Symbol) (e : Elem)
    (d : ImportDescriptor) : Except BuildError (List Symbol × Elem) := do
  let mn ← stripModuleName d.name
  let e : Elem := { e with address := d.firstThunk, module_name := some mn }
  let r := ZyanVectorBinarySearch t d.firstThunk
  if r.1 then .error .assertThunkPresent
  else
    let st := walkThunks im w { table := t, elem := e, idx := r.2 } d.thunks
    .ok (st.table, st.elem)

/-- The descriptor walk (`ZydisPE.c:567`): process descriptors until the
first one whose `OriginalFirstThunk` is zero. -/
def importPhase (im : PEImage) (w : Width) :
    List ImportDescriptor → List Symbol × Elem → Except BuildError (List Symbol × Elem)
  | [], te => .ok te
  | d :: rest, te =>
    if d.originalFirstThunk = 0 then .ok te
    else do
      let te2 ← importDescStep im w te.1 te.2 d
      importPhase im w rest te2

/-- The symbol-table construction of `ZydisPEContextInit`
(`ZydisPE.c:472-772`): export phase then import phase; the architecture
width only selects the thunk size, the ordinal-flag bit and the header
layout. -/
def ZydisPEContextInit (im : PEImage) : Except BuildError (List Symbol) := do
  let te ← exportPhase im
  match im.importDescriptors with
  | none => .ok te.1
  | some ds => do
    let te2 ← importPhase im im.width ds te
    .ok te2.1

/-- C5 (amended): For every image whose export directory is present
(nonzero virtual address) with `NumberOfFunctions = 0`, whose import
directory virtual address is zero, and whose export module name contains
a `'.'` (so that the trimming loop terminates normally), the construction
yields exactly the synthetic `EntryPoint` symbol keyed at the entry-point
RVA.  For a dotless module name the trimming loop instead scans out of
the buffer (the C4 defect) and no table is produced (see the
counterexample below). -/
theorem entrypoint_only_table (im : PEImage) (ed : ExportDirectory) (j : Nat)
    (he : im.exportDirectory = some ed) (hf : ed.functions = [])
    (hi : im.importDescriptors = none)
    (ht : trimModuleName ed.name.toList = .found j) :
    ZydisPEContextInit im = .ok
      [ { address := im.addressOfEntryPoint,
          module_name := some (String.mk (ed.name.toList.take j)),
          symbol_name := some "EntryPoint" } ] := by
  have ht2 : trimModuleName ed.name.data = .found j := ht
  simp [ZydisPEContextInit, exportPhase, stripModuleName, he, hi, hf, ht2, symOf,
    Bind.bind, Except.bind]

/-- A concrete image used to witness C5. -/
def imageC5 : PEImage :=
  { width := .w64
    addressOfEntryPoint := 0x1234
    exportDirectory := some { name := "foo.dll", functions := [] }
    importDescriptors := none
    importByName := fun _ => "" }

theorem entrypoint_only_table_witness :
    trimModuleName "foo.dll".toList = .found 3 ∧
      ZydisPEContextInit imageC5 = .ok
        [ { address := 0x1234, module_name := some (String.mk ("foo.dll".toList.take 3)),
            symbol_name := some "EntryPoint" } ] :=
  ⟨by decide, entrypoint_only_table imageC5 { name := "foo.dll", functions := [] } 3
    rfl rfl rfl (by decide)⟩

/-- An image inside the C5 claim's class (export directory present, zero
functions, no import directory) whose export module name `"foo"` contains
no `'.'`. -/
def imageC5x : PEImage :=
  { width := .w32
    addressOfEntryPoint := 7
    exportDirectory := some { name := "foo", functions := [] }
    importDescriptors := none
    importByName := fun _ => "" }

/-- C5 is refuted as stated: on `imageC5x` — squarely inside the claim's
quantifier — the module-name trimming loop leaves the buffer (the C4
out-of-bounds read, undefined behavior in C), so construction does not
produce the claimed one-entry table. -/
theorem entrypoint_only_table_counterexample :
    imageC5x.exportDirectory = some { name := "foo", functions := [] } ∧
    imageC5x.importDescriptors = none ∧
    ZydisPEContextInit imageC5x = .error .oobModuleName :=
  ⟨rfl, rfl, by rfl⟩

/-! ## Characterization of the thunk walk -/

/-- The symbol names the thunk walk assigns, in order: for a flag-clear
thunk the resolved import-by-name string, for a flag-set (ordinal) thunk
the name the `element` already carried — i.e. the propagated previous
name.  The list stops at the first zero thunk value. -/
def thunkNames (im : PEImage) (w : Width) : Option String → List Nat → List (Option String)
  | _, [] => []
  | prev, v :: rest =>
    if v = 0 then []
    else
      let nm := if ordinalFlag w v then prev else some (im.importByName v)
      nm :: thunkNames im w nm rest

/-- The run of symbols a thunk walk inserts: keyed at the running address,
which advances by one thunk width per entry, all carrying the module name
of the current descriptor. -/
def thunkRunSyms (w : Width) (module : Option String) : Nat → List (Option String) → List Symbol
  | _, [] => []
  | addr, nm :: rest =>
    { address := addr, module_name := module, symbol_name := nm } ::
      thunkRunSyms w module (addr + thunkSize w) rest

theorem insertIdx_eq_take_cons_drop {α : Type} (x : α) :
    ∀ (l : List α) (i : Nat), i ≤ l.length →
      List.insertIdx i x l = l.take i ++ x :: l.drop i
  | _, 0, _ => by simp [List.insertIdx_zero]
  | [], i + 1, h => by simp at h
  | a :: l, i + 1, h => by
    rw [List.insertIdx_succ_cons, insertIdx_eq_take_cons_drop x l i (by simpa using h)]
    simp

theorem walkThunks_table (im : PEImage) (w : Width) :
    ∀ (thunks : List Nat) (st : WalkState), st.idx ≤ st.table.length →
      (walkThunks im w st thunks).table =
        st.table.take st.idx ++
          thunkRunSyms w st.elem.module_name st.elem.address
            (thunkNames im w st.elem.symbol_name thunks) ++
          st.table.drop st.idx
  | [], st, _ => by
    simp [walkThunks, thunkNames, thunkRunSyms]
  | v :: rest, st, h => by
    by_cases hv : v = 0
    · simp [walkThunks, thunkNames, thunkRunSyms, hv]
    · have hflagName :
          (if ordinalFlag w v then st.elem
            else { st.elem with symbol_name := some (im.importByName v) }).symbol_name =
            (if ordinalFlag w v then st.elem.symbol_name else some (im.importByName v)) := by
        by_cases hf : ordinalFlag w v <;> simp [hf]
      have hflagMod :
          (if ordinalFlag w v then st.elem
            else { st.elem with symbol_name := some (im.importByName v) }).module_name =
            st.elem.module_name := by
        by_cases hf : ordinalFlag w v <;> simp [hf]
      have hflagAddr :
          (if ordinalFlag w v then st.elem
            else { st.elem with symbol_name := some (im.importByName v) }).address =
            st.elem.address := by
        by_cases hf : ordinalFlag w v <;> simp [hf]
      have hA : (st.table.take st.idx).length = st.idx := by
        rw [List.length_take]
        omega
      have hsplit : ZyanVectorInsert st.table st.idx
          (symOf (if ordinalFlag w v then st.elem
            else { st.elem with symbol_name := some (im.importByName v) })) =
          st.table.take st.idx ++
            symOf (if ordinalFlag w v then st.elem
              else { st.elem with symbol_name := some (im.importByName v) }) ::
              st.table.drop st.idx :=
        insertIdx_eq_take_cons_drop _ st.table st.idx h
      have hlen2 : st.idx + 1 ≤ (ZyanVectorInsert st.table st.idx
          (symOf (if ordinalFlag w v then st.elem
            else { st.elem with symbol_name := some (im.importByName v) }))).length := by
        rw [hsplit]
        simp only [List.length_append, List.length_cons, hA]
        omega
      have key := walkThunks_table im w rest
        { table := ZyanVectorInsert st.table st.idx
            (symOf (if ordinalFlag w v then st.elem
              else { st.elem with symbol_name := some (im.importByName v) }))
          elem := { (if ordinalFlag w v then st.elem
              else { st.elem with symbol_name := some (im.importByName v) }) with
            address := (if ordinalFlag w v then st.elem
              else { st.elem with symbol_name := some (im.importByName v) }).address +
                thunkSize w }
          idx := st.idx + 1 } hlen2
      simp only [walkThunks, if_neg hv]
      rw [key]
      simp only [hsplit, hflagMod, hflagName, hflagAddr]
      have htake : (st.table.take st.idx ++
          symOf (if ordinalFlag w v then st.elem
            else { st.elem with symbol_name := some (im.importByName v) }) ::
            st.table.drop st.idx).take (st.idx + 1) =
          st.table.take st.idx ++
            [symOf (if ordinalFlag w v then st.elem
              else { st.elem with symbol_name := some (im.importByName v) })] := by
        rw [List.take_append_eq_append_take]
        rw [List.take_of_length_le (by omega)]
        rw [hA]
        have h1 : st.idx + 1 - st.idx = 1 := by omega
        rw [h1]
        simp
      have hdrop : (st.table.take st.idx ++
          symOf (if ordinalFlag w v then st.elem
            else { st.elem with symbol_name := some (im.importByName v) }) ::
            st.table.drop st.idx).drop (st.idx + 1) = st.table.drop st.idx := by
        rw [List.drop_append_eq_append_drop]
        rw [List.drop_of_length_le (by omega)]
        rw [hA]
        have h1 : st.idx + 1 - st.idx = 1 := by omega
        rw [h1]
        simp
      rw [htake, hdrop]
      have hnames : thunkNames im w st.elem.symbol_name (v :: rest) =
          (if ordinalFlag w v then st.elem.symbol_name else some (im.importByName v)) ::
            thunkNames im w
              (if ordinalFlag w v then st.elem.symbol_name else some (im.importByName v))
              rest := by
        simp [thunkNames, hv]
      rw [hnames]
      have hsym : symOf (if ordinalFlag w v then st.elem
          else { st.elem with symbol_name := some (im.importByName v) }) =
          { address := st.elem.address, module_name := st.elem.module_name
            symbol_name :=
              (if ordinalFlag w v then st.elem.symbol_name else some (im.importByName v)) } := by
        by_cases hf : ordinalFlag w v <;> simp [hf, symOf]
      rw [hsym]
      simp [thunkRunSyms, hflagName]

theorem thunkRunSyms_mem_ge (w : Width) (m : Option String) :
    ∀ (names : List (Option String)) (addr : Nat) (x : Symbol),
      x ∈ thunkRunSyms w m addr names → addr ≤ x.address
  | [], _, _, hx => by simp [thunkRunSyms] at hx
  | nm :: rest, addr, x, hx => by
    rcases List.mem_cons.mp hx with rfl | hx2
    · exact Nat.le_refl _
    · have := thunkRunSyms_mem_ge w m rest (addr + thunkSize w) x hx2
      omega

theorem thunkRunSyms_mem_le (w : Width) (m : Option String) :
    ∀ (names : List (Option String)) (addr : Nat) (x : Symbol),
      x ∈ thunkRunSyms w m addr names →
        x.address ≤ addr + (names.length - 1) * thunkSize w
  | [], _, _, hx => by simp [thunkRunSyms] at hx
  | nm :: rest, addr, x, hx => by
    rcases List.mem_cons.mp hx with rfl | hx2
    · simp
    · cases rest with
      | nil => simp [thunkRunSyms] at hx2
      | cons nm2 rest2 =>
        have hle := thunkRunSyms_mem_le w m (nm2 :: rest2) (addr + thunkSize w) x hx2
        simp only [List.length_cons] at hle ⊢
        have harith : addr + thunkSize w + (rest2.length + 1 - 1) * thunkSize w =
            addr + (rest2.length + 1 + 1 - 1) * thunkSize w := by
          simp only [Nat.add_sub_cancel]
          rw [Nat.succ_mul]
          omega
        omega

theorem thunkRunSyms_sorted (w : Width) (m : Option String) :
    ∀ (names : List (Option String)) (addr : Nat),
      SortedByAddr (thunkRunSyms w m addr names)
  | [], _ => List.sorted_nil
  | nm :: rest, addr => by
    show List.Sorted symLE ({ address := addr, module_name := m, symbol_name := nm } ::
      thunkRunSyms w m (addr + thunkSize w) rest)
    rw [List.sorted_cons]
    constructor
    · intro b hb
      have := thunkRunSyms_mem_ge w m rest (addr + thunkSize w) b hb
      unfold symLE
      simp only
      omega
    · exact thunkRunSyms_sorted w m rest (addr + thunkSize w)

theorem lowerIdx_cons_of_lt {b : Symbol} {a : Nat} (t : List Symbol)
    (hb : b.address < a) : lowerIdx (b :: t) a = lowerIdx t a + 1 := by
  unfold lowerIdx
  rw [List.countP_cons_of_pos _ _ (by simpa using hb)]

theorem lowerIdx_cons_of_ge {b : Symbol} {t : List Symbol} {a : Nat}
    (h : SortedByAddr (b :: t)) (hb : ¬b.address < a) : lowerIdx (b :: t) a = 0 := by
  obtain ⟨hball, _⟩ := List.sorted_cons.mp h
  unfold lowerIdx
  rw [List.countP_cons_of_neg _ _ (by simpa using hb)]
  rw [List.countP_eq_zero]
  intro e he
  have hbe := hball e he
  unfold symLE at hbe
  simp only [decide_eq_true_eq]
  omega

theorem mem_take_lowerIdx :
    ∀ (t : List Symbol), SortedByAddr t → ∀ (a : Nat) (x : Symbol),
      x ∈ t.take (lowerIdx t a) → x.address < a
  | [], _, a, x, hx => by simp at hx
  | b :: t, h, a, x, hx => by
    obtain ⟨hball, htail⟩ := List.sorted_cons.mp h
    by_cases hb : b.address < a
    · rw [lowerIdx_cons_of_lt t hb, List.take_succ_cons] at hx
      rcases List.mem_cons.mp hx with rfl | hx2
      · exact hb
      · exact mem_take_lowerIdx t htail a x hx2
    · rw [lowerIdx_cons_of_ge h hb, List.take_zero] at hx
      simp at hx

theorem mem_drop_lowerIdx :
    ∀ (t : List Symbol), SortedByAddr t → ∀ (a : Nat) (x : Symbol),
      x ∈ t.drop (lowerIdx t a) → a ≤ x.address
  | [], _, a, x, hx => by simp at hx
  | b :: t, h, a, x, hx => by
    obtain ⟨hball, htail⟩ := List.sorted_cons.mp h
    by_cases hb : b.address < a
    · rw [lowerIdx_cons_of_lt t hb, List.drop_succ_cons] at hx
      exact mem_drop_lowerIdx t htail a x hx
    · rw [lowerIdx_cons_of_ge h hb, List.drop_zero] at hx
      rcases List.mem_cons.mp hx with rfl | hx2
      · omega
      · have hbe := hball x hx2
        unfold symLE at hbe
        omega

/-- Sortedness of a thunk-run insertion: starting from a sorted table, with
the running index at the lower bound of the starting address, and no table
address strictly between the run's first and last addresses, the walk
leaves the table sorted. -/
theorem walkThunks_sorted (im : PEImage) (w : Width) (st : WalkState)
    (thunks : List Nat) (hs : SortedByAddr st.table)
    (hidx : st.idx = lowerIdx st.table st.elem.address)
    (hgap : ∀ e ∈ st.table, e.address < st.elem.address ∨
      st.elem.address +
        ((thunkNames im w st.elem.symbol_name thunks).length - 1) * thunkSize w ≤
        e.address) :
    SortedByAddr (walkThunks im w st thunks).table := by
  have hlen : st.idx ≤ st.table.length := by
    rw [hidx]; exact lowerIdx_le_length _ _
  rw [walkThunks_table im w thunks st hlen]
  unfold SortedByAddr List.Sorted
  rw [List.pairwise_append, List.pairwise_append]
  refine ⟨⟨?_, ?_, ?_⟩, ?_, ?_⟩
  · exact List.Pairwise.sublist (List.take_sublist _ _) hs
  · exact thunkRunSyms_sorted w _ _ _
  · intro x hx y hy
    have hxa : x.address < st.elem.address := by
      apply mem_take_lowerIdx st.table hs st.elem.address x
      rw [← hidx]; exact hx
    have hya := thunkRunSyms_mem_ge w _ _ _ y hy
    unfold symLE
    omega
  · exact List.Pairwise.sublist (List.drop_sublist _ _) hs
  · intro x hx z hz
    have hzt : z ∈ st.table := List.mem_of_mem_drop hz
    have hza : st.elem.address ≤ z.address := by
      apply mem_drop_lowerIdx st.table hs st.elem.address z
      rw [← hidx]; exact hz
    have hzg : st.elem.address +
        ((thunkNames im w st.elem.symbol_name thunks).length - 1) * thunkSize w ≤
        z.address := by
      rcases hgap z hzt with hlt | hge
      · omega
      · exact hge
    rcases List.mem_append.mp hx with hxA | hxR
    · have hxa : x.address < st.elem.address := by
        apply mem_take_lowerIdx st.table hs st.elem.address x
        rw [← hidx]; exact hxA
      unfold symLE
      omega
    · have hxa := thunkRunSyms_mem_le w _ _ _ x hxR
      unfold symLE
      omega

/-- The index reported by the binary search is the lower-bound index. -/
theorem binarySearch_idx (t : List Symbol) (a : Nat) :
    (ZyanVectorBinarySearch t a).2 = lowerIdx t a := by
  unfold ZyanVectorBinarySearch
  rcases hg : t[lowerIdx t a]? with _ | e <;> simp [hg]

/-- C2 (amended): the EntryPoint append (into the still-empty table) and
every export insertion preserve address-sortedness, and an import-thunk
walk preserves it provided no address already in the table lies strictly
between the run's first address and its last; without that proviso a
thunk run can leave the table unsorted (see the counterexample). -/
theorem symbol_insertions_sorted :
    (∀ e : Elem, SortedByAddr [symOf e]) ∧
    (∀ (t : List Symbol) (e : Elem) (fn : Nat × String), SortedByAddr t →
      SortedByAddr (exportStep t e fn).1) ∧
    (∀ (im : PEImage) (w : Width) (st : WalkState) (thunks : List Nat),
      SortedByAddr st.table →
      st.idx = lowerIdx st.table st.elem.address →
      (∀ e ∈ st.table, e.address < st.elem.address ∨
        st.elem.address +
          ((thunkNames im w st.elem.symbol_name thunks).length - 1) * thunkSize w ≤
          e.address) →
      SortedByAddr (walkThunks im w st thunks).table) := by
  refine ⟨?_, ?_, ?_⟩
  · intro e
    exact List.sorted_singleton _
  · intro t e fn h
    show SortedByAddr (ZyanVectorInsert t (ZyanVectorBinarySearch t fn.1).2 _)
    rw [binarySearch_idx]
    unfold ZyanVectorInsert
    have hx : (symOf { e with address := fn.1, symbol_name := some fn.2 }).address = fn.1 := rfl
    rw [← hx]
    exact sorted_insert_lowerIdx h _
  · intro im w st thunks hs hidx hgap
    exact walkThunks_sorted im w st thunks hs hidx hgap

/-- The image from the spec's C2 claim that breaks sortedness: the
EntryPoint symbol sits at RVA 6, strictly between the two thunk addresses
4 and 8 of the only import descriptor. -/
def imageC2 : PEImage :=
  { width := .w32
    addressOfEntryPoint := 6
    exportDirectory := some { name := "a.b", functions := [] }
    importDescriptors := some
      [ { originalFirstThunk := 0x2000, name := "c.d", firstThunk := 4
          thunks := [0x3000, 0x3008, 0] } ]
    importByName := fun _ => "f" }

theorem sorted_insertion_counterexample :
    ZydisPEContextInit imageC2 = .ok
      [ { address := 4, module_name := some "c", symbol_name := some "f" }
      , { address := 8, module_name := some "c", symbol_name := some "f" }
      , { address := 6, module_name := some "a", symbol_name := some "EntryPoint" } ] ∧
    ¬SortedByAddr
      [ { address := 4, module_name := some "c", symbol_name := some "f" }
      , { address := 8, module_name := some "c", symbol_name := some "f" }
      , { address := 6, module_name := some "a", symbol_name := some "EntryPoint" } ] :=
  ⟨by rfl, by decide⟩

/-- The table that construction of `imageC2` produces. -/
def tableC2 : List Symbol :=
  [ { address := 4, module_name := some "c", symbol_name := some "f" }
  , { address := 8, module_name := some "c", symbol_name := some "f" }
  , { address := 6, module_name := some "a", symbol_name := some "EntryPoint" } ]

/-- C3 is refuted as stated: construction of `imageC2` inserts a symbol
at address 6 (the EntryPoint), but the table it produces is unsorted and
looking up the inserted address 6 in it returns none — the exact-match
guarantee fails on a table the construction itself can produce. -/
theorem symbol_lookup_miss_counterexample :
    ZydisPEContextInit imageC2 = .ok tableC2 ∧
    6 ∈ tableC2.map Symbol.address ∧
    lookupSymbol tableC2 6 = none :=
  ⟨by rfl, by decide, by decide⟩

/-- Concrete inputs witnessing the amended C2 theorem. -/
def walkStateC2 : WalkState :=
  { table := [ { address := 2, module_name := some "m", symbol_name := some "s" } ]
    elem := { address := 5, module_name := some "c", symbol_name := some "p" }
    idx := 1 }

theorem symbol_insertions_sorted_witness :
    SortedByAddr [symOf initElem] ∧
      SortedByAddr (exportStep [] initElem (5, "s")).1 ∧
      SortedByAddr (walkThunks imageC5 .w32 walkStateC2 [0x3000, 0]).table :=
  ⟨symbol_insertions_sorted.1 initElem,
    symbol_insertions_sorted.2.1 [] initElem (5, "s") (by decide),
    symbol_insertions_sorted.2.2 imageC5 .w32 walkStateC2 [0x3000, 0]
      (by decide) (by decide) (by decide)⟩

/-- C6 (amended): the import step requires the searched `FirstThunk`
address to be reported absent — a present match makes the assertion
`ZYAN_ASSERT(status == ZYAN_STATUS_FALSE)` fail, aborting construction —
while the export step inserts unconditionally, growing the table even
when the address is already present; the asserted absence, however, does
not hold for every image (see the counterexample). -/
theorem import_absence_check_asymmetry :
    (∀ (im : PEImage) (w : Width) (t : List Symbol) (e : Elem)
        (d : ImportDescriptor) (mn : String),
      stripModuleName d.name = .ok mn →
      (ZyanVectorBinarySearch t d.firstThunk).1 = true →
      importDescStep im w t e d = .error .assertThunkPresent) ∧
    (∀ (t : List Symbol) (e : Elem) (fn : Nat × String),
      ((exportStep t e fn).1).length = t.length + 1) := by
  constructor
  · intro im w t e d mn hmn hfound
    unfold importDescStep
    rw [hmn]
    simp [Bind.bind, Except.bind, hfound]
  · intro t e fn
    show (ZyanVectorInsert t (ZyanVectorBinarySearch t fn.1).2 _).length = t.length + 1
    rw [binarySearch_idx]
    unfold ZyanVectorInsert
    exact List.length_insertIdx _ _ (lowerIdx_le_length t fn.1)

/-- The image refuting the claimed validity of the absence assertion: the
entry-point RVA 4 equals the only descriptor's `FirstThunk`, so the search
finds it present and the assertion fires. -/
def imageC6 : PEImage :=
  { width := .w32
    addressOfEntryPoint := 4
    exportDirectory := some { name := "a.b", functions := [] }
    importDescriptors := some
      [ { originalFirstThunk := 0x2000, name := "c.d", firstThunk := 4
          thunks := [1, 0] } ]
    importByName := fun _ => "f" }

theorem import_absence_assert_counterexample :
    ZydisPEContextInit imageC6 = .error .assertThunkPresent := by rfl

theorem import_absence_check_asymmetry_witness :
    importDescStep imageC6 .w32
        [ { address := 4, module_name := some "a", symbol_name := some "EntryPoint" } ]
        initElem
        { originalFirstThunk := 0x2000, name := "c.d", firstThunk := 4, thunks := [1, 0] } =
      .error .assertThunkPresent ∧
    ((exportStep [ { address := 4, module_name := some "a", symbol_name := some "EntryPoint" } ]
        initElem (4, "dup")).1).length = 2 :=
  ⟨import_absence_check_asymmetry.1 imageC6 .w32 _ initElem _ "c" (by rfl) (by decide),
    import_absence_check_asymmetry.2 _ initElem (4, "dup")⟩

/-- C7 (amended): the thunk walk inserts, at consecutive indices, symbols
keyed at the running address (the descriptor's `FirstThunk`, advancing by
one thunk width — 4 bytes on 32-bit, 8 on 64-bit — per thunk), each
carrying the descriptor's module name; a flag-clear thunk's symbol gets
the resolved import-by-name string, while a flag-set (ordinal) thunk's
symbol keeps the name `element.symbol_name` already carried — the stale
previous name, not an empty one (see the counterexample). -/
theorem import_thunk_walk_inserts (im : PEImage) (w : Width) (st : WalkState)
    (thunks : List Nat) (h : st.idx ≤ st.table.length) :
    (walkThunks im w st thunks).table =
      st.table.take st.idx ++
        thunkRunSyms w st.elem.module_name st.elem.address
          (thunkNames im w st.elem.symbol_name thunks) ++
        st.table.drop st.idx :=
  walkThunks_table im w thunks st h

/-- An image whose single import thunk is ordinal-imported (top bit set):
the inserted symbol keeps the stale name `"EntryPoint"` left in
`element.symbol_name` by the export phase, refuting the claimed empty
name. -/
def imageC7 : PEImage :=
  { width := .w32
    addressOfEntryPoint := 6
    exportDirectory := some { name := "a.b", functions := [] }
    importDescriptors := some
      [ { originalFirstThunk := 0x2000, name := "c.d", firstThunk := 100
          thunks := [0x80000005, 0] } ]
    importByName := fun _ => "unused" }

theorem import_thunk_ordinal_name_counterexample :
    ZydisPEContextInit imageC7 = .ok
      [ { address := 6, module_name := some "a", symbol_name := some "EntryPoint" }
      , { address := 100, module_name := some "c", symbol_name := some "EntryPoint" } ] ∧
    (some "EntryPoint" : Option String) ≠ some "" :=
  ⟨by rfl, by decide⟩

theorem import_thunk_walk_inserts_witness :
    (walkThunks imageC7 .w32 walkStateC2 [0x3000, 0]).table =
      walkStateC2.table.take walkStateC2.idx ++
        thunkRunSyms .w32 walkStateC2.elem.module_name walkStateC2.elem.address
          (thunkNames imageC7 .w32 walkStateC2.elem.symbol_name [0x3000, 0]) ++
        walkStateC2.table.drop walkStateC2.idx :=
  import_thunk_walk_inserts imageC7 .w32 walkStateC2 [0x3000, 0] (by decide)

/-! ## The per-section disassembly loop (`DisassembleMappedPEFile`) -/

/-- The Zycore macro `ZYAN_MAKE_STATUS(error, module, code)` from the
`Zycore/Status.h` dependency: 1 error bit, 11 module bits, 20 code bits. -/
def ZYAN_MAKE_STATUS (error module code : Nat) : Nat :=
  ((error &&& 0x1) <<< 31) ||| ((module &&& 0x7FF) <<< 20) ||| (code &&& 0xFFFFF)

/-- `ZYAN_MODULE_ZYCORE` (dependency `Zycore/Status.h`). -/
def ZYAN_MODULE_ZYCORE : Nat := 0x001

/-- `ZYAN_MODULE_ZYDIS_PE` (`ZydisPE.c:52`). -/
def ZYAN_MODULE_ZYDIS_PE : Nat := 0x101

/-- `ZYAN_STATUS_SUCCESS` (dependency `Zycore/Status.h`). -/
def ZYAN_STATUS_SUCCESS : Nat := ZYAN_MAKE_STATUS 0 ZYAN_MODULE_ZYCORE 0x00

/-- `ZYAN_STATUS_INVALID_ARGUMENT` (dependency `Zycore/Status.h`). -/
def ZYAN_STATUS_INVALID_ARGUMENT : Nat := ZYAN_MAKE_STATUS 1 ZYAN_MODULE_ZYCORE 0x04

/-- `ZYAN_STATUS_NOT_ENOUGH_MEMORY` (dependency `Zycore/Status.h`). -/
def ZYAN_STATUS_NOT_ENOUGH_MEMORY : Nat := ZYAN_MAKE_STATUS 1 ZYAN_MODULE_ZYCORE 0x09

/-- `ZYAN_STATUS_BAD_SYSTEMCALL` (dependency `Zycore/Status.h`). -/
def ZYAN_STATUS_BAD_SYSTEMCALL : Nat := ZYAN_MAKE_STATUS 1 ZYAN_MODULE_ZYCORE 0x0A

/-- `ZYDIS_STATUS_INVALID_DOS_SIGNATURE` (`ZydisPE.c:61-62`). -/
def ZYDIS_STATUS_INVALID_DOS_SIGNATURE : Nat := ZYAN_MAKE_STATUS 1 ZYAN_MODULE_ZYDIS_PE 0x00

/-- `ZYDIS_STATUS_INVALID_NT_SIGNATURE` (`ZydisPE.c:67-68`). -/
def ZYDIS_STATUS_INVALID_NT_SIGNATURE : Nat := ZYAN_MAKE_STATUS 1 ZYAN_MODULE_ZYDIS_PE 0x01

/-- `ZYDIS_STATUS_UNSUPPORTED_ARCHITECTURE` (`ZydisPE.c:73-74`). -/
def ZYDIS_STATUS_UNSUPPORTED_ARCHITECTURE : Nat := ZYAN_MAKE_STATUS 1 ZYAN_MODULE_ZYDIS_PE 0x02

/-- The terminating conditions of `main` (`ZydisPE.c:974-1066`) named by
the claim.  `initFailure` carries the library status that
`DisassembleMappedPEFile` propagates when decoder or formatter
initialization fails (a value fixed by the Zydis library, not by this
file). -/
inductive MainCond
  | badArgCount
  | fileOpenFailure
  | allocFailure
  | shortRead
  | invalidDosSignature
  | invalidNtSignature
  | unsupportedArchitecture
  | initFailure (s : Nat)
  | success
  deriving DecidableEq, Repr

/-- The status value `main` returns for each terminating condition: the
`return` statements at `ZydisPE.c:980` (`ZYAN_STATUS_INVALID_ARGUMENT`),
988 (`ZYAN_STATUS_BAD_SYSTEMCALL`), 998 (`ZYAN_STATUS_NOT_ENOUGH_MEMORY`),
1008 (`ZYAN_STATUS_BAD_SYSTEMCALL` again, for the short read), 1016, 1024,
1035/1045, the propagated initialization status, and — on the success
path — the `ZYAN_STATUS_SUCCESS` that `ZydisPEContextFinalize`'s vector
destruction returns. -/
def mainExitCode : MainCond → Nat
  | .badArgCount => ZYAN_STATUS_INVALID_ARGUMENT
  | .fileOpenFailure => ZYAN_STATUS_BAD_SYSTEMCALL
  | .allocFailure => ZYAN_STATUS_NOT_ENOUGH_MEMORY
  | .shortRead => ZYAN_STATUS_BAD_SYSTEMCALL
  | .invalidDosSignature => ZYDIS_STATUS_INVALID_DOS_SIGNATURE
  | .invalidNtSignature => ZYDIS_STATUS_INVALID_NT_SIGNATURE
  | .unsupportedArchitecture => ZYDIS_STATUS_UNSUPPORTED_ARCHITECTURE
  | .initFailure s => s
  | .success => ZYAN_STATUS_SUCCESS

/-- The claimed pairwise distinctness fails: a file-open failure and a
short read return the very same constant `ZYAN_STATUS_BAD_SYSTEMCALL`,
although they are different failure conditions. -/
theorem exit_codes_distinct_counterexample :
    mainExitCode .fileOpenFailure = mainExitCode .shortRead ∧
      MainCond.fileOpenFailure ≠ MainCond.shortRead := by
  exact ⟨rfl, by decide⟩

/-- C9 (amended): bad argument count, file I/O failure (one shared code
for file-open failure and short read), allocation failure, invalid DOS
signature, invalid NT signature, unsupported architecture and successful
completion yield pairwise distinct status values; decoder/formatter
initialization failure propagates a library status not fixed in this
file. -/
theorem exit_codes_distinct :
    List.Pairwise (fun a b => a ≠ b)
      [ mainExitCode .badArgCount
      , mainExitCode .fileOpenFailure
      , mainExitCode .allocFailure
      , mainExitCode .invalidDosSignature
      , mainExitCode .invalidNtSignature
      , mainExitCode .unsupportedArchitecture
      , mainExitCode .success ] := by
  decide

end ZydisPE
